import Mathlib

/-!
Verification of the task-manager core (`src/core.py`): record parsing,
mutation operations (add, modify, rm, add_options, rmLabel, clearLabel,
rmDep) and the line serialization produced by `add`.

Python strings are modelled as Lean `String`s; the single-character
`str.split` used by the code is modelled by an explicit recursive split on
the character list, `str.strip` by dropping ASCII whitespace on both ends,
and `int(...)` conversion by `pyInt` (optional sign, digits, underscores
between digits, surrounding whitespace).  Fallible operations — the three
operations that reference an unassigned local on their not-found path —
return `Except Unit`, where `Except.error ()` models the raised
`UnboundLocalError`.
-/

namespace TaskManager

/-- A task record: `(id, description, labels, status, dependence)`
as produced by `parse_tasks`. -/
structure Task where
  id : Int
  desc : String
  labels : List String
  status : String
  dep : Option Int
  deriving DecidableEq, Repr

instance : Inhabited Task := ⟨⟨0, "", [], "", none⟩⟩

/-- ASCII whitespace stripped by Python `str.strip()`. -/
def pyWS (c : Char) : Bool :=
  c == ' ' || c == '\t' || c == '\n' || c == '\r' || c == '\x0b' || c == '\x0c'

/-- Strip `pyWS` characters from both ends of a character list. -/
def stripList (cs : List Char) : List Char :=
  ((cs.dropWhile pyWS).reverse.dropWhile pyWS).reverse

/-- Model of Python `str.strip()`. -/
def pyStrip (s : String) : String := ⟨stripList s.data⟩

/-- Model of Python `str.split(sep)` for a one-character separator,
on character lists.  `splitChar sep [] = [[]]` matches `"".split(sep) == [""]`. -/
def splitChar (sep : Char) : List Char → List (List Char)
  | [] => [[]]
  | c :: rest =>
    if c == sep then [] :: splitChar sep rest
    else
      match splitChar sep rest with
      | [] => [[c]]
      | f :: tail => (c :: f) :: tail

/-- Model of Python `str.split(sep)` for a one-character separator. -/
def pySplit (s : String) (sep : Char) : List String :=
  (splitChar sep s.data).map String.mk

/-- Model of Python `sep.join(chunks)` for a one-character separator,
on character lists. -/
def joinChar (sep : Char) : List (List Char) → List Char
  | [] => []
  | [x] => x
  | x :: xs => x ++ sep :: joinChar sep xs

/-- Model of Python `sep.join(xs)` for a one-character separator. -/
def pyJoin (sep : Char) (xs : List String) : String :=
  ⟨joinChar sep (xs.map String.data)⟩

/-- Numeric value of an ASCII digit. -/
def digitVal (c : Char) : Nat := c.toNat - 48

/-- Digits of a Python integer literal after the first digit: ASCII digits
with single underscores allowed between digits. -/
def pyDigits : Nat → List Char → Option Nat
  | acc, [] => some acc
  | acc, c :: rest =>
    if c.isDigit then pyDigits (10 * acc + digitVal c) rest
    else if c == '_' then
      match rest with
      | [] => none
      | d :: rest2 => if d.isDigit then pyDigits (10 * acc + digitVal d) rest2 else none
    else none

/-- Unsigned part of Python `int(...)`: must start with a digit. -/
def pyNat : List Char → Option Nat
  | [] => none
  | c :: rest => if c.isDigit then pyDigits (digitVal c) rest else none

/-- Model of Python `int(s)`: strip whitespace, optional sign, digits.
`none` models the raised `ValueError`. -/
def pyInt (s : String) : Option Int :=
  match stripList s.data with
  | '+' :: rest => (pyNat rest).map Int.ofNat
  | '-' :: rest => (pyNat rest).map (fun n => -(Int.ofNat n))
  | cs => (pyNat cs).map Int.ofNat

/-- Model of Python `str.isdigit()` (ASCII): nonempty and all digits. -/
def pyIsDigit (cs : List Char) : Bool := !cs.isEmpty && cs.all Char.isDigit

/-- Dependency field of `parse_tasks`: `int(f.strip())` when
`f.strip().isdigit()`, else `None`. -/
def pyDepField (s : String) : Option Int :=
  let t := stripList s.data
  if pyIsDigit t then (pyNat t).map Int.ofNat else none

/-- The four statuses accepted by `add` and `modify`. -/
def validStatuses : List String := ["started", "suspended", "completed", "cancelled"]

/-- One iteration of the `parse_tasks` loop: `some` when the line yields a
record, `none` when it is silently dropped (blank line, fewer than two
`;`-fields, or a first field `int(...)` rejects). -/
def parseLine (line : String) : Option Task :=
  let l := pyStrip line
  if l == "" then none
  else
    match pySplit l ';' with
    | p0 :: p1 :: rest =>
      match pyInt p0 with
      | none => none
      | some tid =>
        let labels :=
          match rest with
          | p2 :: _ =>
            if p2 != "None" then ((pySplit p2 ',').map pyStrip).filter (fun x => x != "")
            else []
          | [] => []
        let st :=
          match rest with
          | _ :: p3 :: _ => if pyStrip p3 != "" then pyStrip p3 else "suspended"
          | _ => "suspended"
        let dep :=
          match rest with
          | _ :: _ :: p4 :: _ => pyDepField p4
          | _ => none
        some ⟨tid, p1, labels, st, dep⟩
    | _ => none

/-- `parse_tasks`: fold over the raw lines, appending each successfully
parsed record, exactly as the Python loop builds `parsed_tasks`. -/
def parse_tasks (tasks : List String) : List Task :=
  tasks.foldl (fun acc line =>
    match parseLine line with
    | some t => acc ++ [t]
    | none => acc) []

/-- The `for ... enumerate` / `break` pattern shared by `modify`,
`add_options`, `clearLabel`, `rmDep` (and the label-popping branch of
`rmLabel`): replace the first record whose id matches with `f` of it,
returning `(found, updated list, old snapshot)`. -/
def updateFirst (f : Task → Task) (tid : Int) : List Task → Bool × List Task × Option Task
  | [] => (false, [], none)
  | t :: rest =>
    if t.id == tid then (true, f t :: rest, some t)
    else
      match updateFirst f tid rest with
      | (fd, ts, old) => (fd, t :: ts, old)

/-- The status computed by `modify` for the matched record when a new
status is requested: `started` is gated on the dependency's first matching
record being `completed` (absent dependency is treated as satisfied); any
other valid status is applied unconditionally; an invalid status keeps the
prior one. -/
def applyStatus (all : List Task) (t : Task) (ns : String) : String :=
  if ns == "started" && t.dep.isSome then
    match t.dep with
    | some d =>
      match all.find? (fun p => p.id == d) with
      | some parent => if parent.status == "completed" then ns else t.status
      | none => ns
    | none => t.status
  else if validStatuses.contains ns then ns
  else t.status

/-- The record update performed by `modify` on the matched record. -/
def modifyTask (all : List Task) (new_details : Option String) (new_status : Option String)
    (t : Task) : Task :=
  let st :=
    match new_status with
    | none => t.status
    | some ns => applyStatus all t ns
  let d :=
    match new_details with
    | none => t.desc
    | some nd => nd
  { t with desc := d, status := st }

/-- `modify`: update status (dependency-gated) and/or description of the
record with the given id.  Unparseable id gives `(false, [], none)`. -/
def modify (tasks : List String) (task_id : String) (new_details : Option String)
    (new_status : Option String) : Bool × List Task × Option Task :=
  match pyInt task_id with
  | none => (false, [], none)
  | some tid =>
    let parsed := parse_tasks tasks
    updateFirst (modifyTask parsed new_details new_status) tid parsed

/-- The `final_tasks` cascade computed by `rm`: clear every dependency
equal to the removed id.  (`rm` computes this list and then discards it.) -/
def rm_cascade (tid : Int) (l : List Task) : List Task :=
  l.map (fun t => if t.dep == some tid then { t with dep := none } else t)

/-- `rm`: remove the record with the given id.  The function computes the
dependency-cascade list `final_tasks` but returns `filtered_tasks`, exactly
as the source does. -/
def rm (tasks : List String) (task_id : String) : Bool × List Task × Option Task :=
  match pyInt task_id with
  | none => (false, parse_tasks tasks, none)
  | some tid =>
    let parsed := parse_tasks tasks
    let filtered := parsed.filter (fun t => t.id != tid)
    let found := decide (filtered.length < parsed.length)
    let final_tasks := rm_cascade tid filtered
    if found then
      (true, filtered, (parsed.filter (fun t => t.id == tid)).getLast?)
    else
      (false, filtered, none)

/-- The resolved outcome of `add`'s interactive dependency prompts:
the user declines a dependency, picks the id of an existing task (the
input loop retries until the id is in the list), or interrupts. -/
inductive AddAnswer where
  | noDep : AddAnswer
  | withDep : Int → AddAnswer
  | cancelled : AddAnswer
  deriving DecidableEq, Repr

/-- The canonical line written by `add`:
`f"{new_id};{details};{labels_str};{status};{id_dep}\n"`. -/
def formatLine (id : Int) (details : String) (labels_str : String) (status : String)
    (id_dep : Option Int) : String :=
  toString id ++ ";" ++ details ++ ";" ++ labels_str ++ ";" ++ status ++ ";" ++
    (match id_dep with
     | some d => toString d
     | none => "None") ++ "\n"

/-- Python `max` over the ids of a nonempty record list, folded left. -/
def maxIdAux (m : Int) : List Task → Int
  | [] => m
  | t :: rest => maxIdAux (max m t.id) rest

/-- `add`: assign the next id (`max + 1`, or `1` on an empty set), validate
the status, resolve the interactive dependency step (`answer`), downgrade a
`started`/`completed` status whose chosen dependency is not `completed`,
and return the record data with the serialized line.  `none` models the
`(None, None, None, None)` cancellation return. -/
def add (tasks : List String) (details : String) (labels : Option (List String))
    (status : String) (answer : AddAnswer) : Option (Int × String × List String × String) :=
  let parsed := parse_tasks tasks
  let new_id : Int :=
    match parsed with
    | [] => 1
    | t :: rest => maxIdAux t.id rest + 1
  let labels_list := labels.getD []
  let labels_str := if labels_list.isEmpty then "None" else pyJoin ',' labels_list
  let status1 := if validStatuses.contains status then status else "suspended"
  match parsed with
  | [] => some (new_id, details, labels_list, formatLine new_id details labels_str status1 none)
  | _ :: _ =>
    match answer with
    | .cancelled => none
    | .noDep => some (new_id, details, labels_list, formatLine new_id details labels_str status1 none)
    | .withDep d =>
      let status2 :=
        if status1 == "started" || status1 == "completed" then
          let parent_status :=
            match parsed.find? (fun p => p.id == d) with
            | some p => p.status
            | none => "suspended"
          if parent_status != "completed" then "suspended" else status1
        else status1
      some (new_id, details, labels_list, formatLine new_id details labels_str status2 (some d))

/-- `add_options`: merge labels (skipping ones already present) and/or set
the dependency; when a dependency already exists, `confirmReplace` is the
resolved answer of the interactive confirmation. -/
def add_options (tasks : List String) (task_id : String) (labels : Option (List String))
    (id_dep : Option Int) (confirmReplace : Bool) : Bool × List Task × Option Task :=
  match pyInt task_id with
  | none => (false, [], none)
  | some tid =>
    updateFirst (fun t =>
      let new_lab :=
        match labels with
        | some ls => ls.foldl (fun acc l => if acc.contains l then acc else acc ++ [l]) t.labels
        | none => t.labels
      let new_dep :=
        match id_dep with
        | some d =>
          match t.dep with
          | some _ => if confirmReplace then some d else t.dep
          | none => some d
        | none => t.dep
      { t with labels := new_lab, dep := new_dep }) tid (parse_tasks tasks)

/-- `rmLabel`: remove one label, chosen interactively.  `choice` is the
resolved prompt outcome for a labelled record (`none` = interrupt; the
retry loop only ever exits with an index below the label count).  On a
valid id that is absent from the set the source's `return` reads the
never-assigned local `old_task`: `Except.error ()` models that
`UnboundLocalError`. -/
def rmLabel (tasks : List String) (task_id : String) (choice : Option Nat) :
    Except Unit (Bool × List Task × Option Task) :=
  match pyInt task_id with
  | none => .ok (false, [], none)
  | some tid =>
    let parsed := parse_tasks tasks
    match parsed.find? (fun t => t.id == tid) with
    | none => .error ()
    | some t =>
      if t.labels.isEmpty then .ok (true, parsed, some t)
      else
        match choice with
        | none => .ok (false, parsed, none)
        | some n =>
          let r := updateFirst (fun u => { u with labels := u.labels.eraseIdx n }) tid parsed
          .ok (true, r.2.1, some t)

/-- `clearLabel`: empty the label list of the matching record.  On a valid
id absent from the set the source's `return` reads the never-assigned
local `old_task`: `Except.error ()` models that `UnboundLocalError`. -/
def clearLabel (tasks : List String) (task_id : String) :
    Except Unit (Bool × List Task × Option Task) :=
  match pyInt task_id with
  | none => .ok (false, [], none)
  | some tid =>
    let r := updateFirst (fun t => { t with labels := [] }) tid (parse_tasks tasks)
    if r.1 then .ok r else .error ()

/-- `rmDep`: clear the dependency of the matching record.  On a valid id
absent from the set the source's `return` reads the never-assigned local
`old_task`: `Except.error ()` models that `UnboundLocalError`. -/
def rmDep (tasks : List String) (task_id : String) :
    Except Unit (Bool × List Task × Option Task) :=
  match pyInt task_id with
  | none => .ok (false, [], none)
  | some tid =>
    let r := updateFirst (fun t => { t with dep := none }) tid (parse_tasks tasks)
    if r.1 then .ok r else .error ()

/-- Status of the first record with the given id, if any. -/
def statusOfId (l : List Task) (i : Int) : Option String :=
  (l.find? (fun t => t.id == i)).map Task.status

/-! ### Supporting lemmas -/

theorem parse_tasks_foldl_aux (ts : List String) :
    ∀ acc : List Task,
      ts.foldl (fun acc line =>
        match parseLine line with
        | some t => acc ++ [t]
        | none => acc) acc = acc ++ ts.filterMap parseLine := by
  induction ts with
  | nil => intro acc; simp
  | cons l rest ih =>
    intro acc
    simp only [List.foldl_cons, List.filterMap_cons]
    cases h : parseLine l with
    | none => simp [h, ih]
    | some t => simp [h, ih, List.append_assoc]

theorem parse_tasks_eq_filterMap (ts : List String) :
    parse_tasks ts = ts.filterMap parseLine := by
  simpa using parse_tasks_foldl_aux ts []

theorem updateFirst_length (f : Task → Task) (tid : Int) (l : List Task) :
    (updateFirst f tid l).2.1.length = l.length := by
  induction l with
  | nil => rfl
  | cons t rest ih =>
    simp only [updateFirst]
    by_cases h : (t.id == tid) = true
    · simp [h]
    · simp only [Bool.not_eq_true] at h
      simp [h, ih]

theorem updateFirst_get?_of_ne (f : Task → Task) (tid : Int) (l : List Task) :
    ∀ (j : Nat) (u : Task), l[j]? = some u → u.id ≠ tid →
      (updateFirst f tid l).2.1[j]? = some u := by
  induction l with
  | nil => intro j u h; simp at h
  | cons t rest ih =>
    intro j u hu hne
    simp only [updateFirst]
    by_cases h : (t.id == tid) = true
    · simp only [h, if_true]
      cases j with
      | zero =>
        simp only [List.getElem?_cons_zero, Option.some.injEq] at hu
        exact absurd (hu ▸ (beq_iff_eq.mp h)) hne
      | succ j => simpa using hu
    · simp only [Bool.not_eq_true] at h
      simp only [h, Bool.false_eq_true, if_false]
      cases j with
      | zero => simpa using hu
      | succ j =>
        simp only [List.getElem?_cons_succ] at hu ⊢
        cases hr : updateFirst f tid rest with
        | mk fd rest' =>
          have := ih j u hu hne
          rw [hr] at this
          simpa using this

theorem updateFirst_of_find?_eq_none (f : Task → Task) (tid : Int) (l : List Task)
    (h : l.find? (fun u => u.id == tid) = none) :
    updateFirst f tid l = (false, l, none) := by
  induction l with
  | nil => rfl
  | cons t rest ih =>
    rw [List.find?_cons] at h
    cases ht : (t.id == tid) with
    | true =>
      rw [ht] at h
      exact absurd h (by simp)
    | false =>
      rw [ht] at h
      simp only at h
      simp only [updateFirst, ht, Bool.false_eq_true, if_false, ih h]

theorem updateFirst_of_find?_eq_some (f : Task → Task) (tid : Int) (l : List Task) (t : Task)
    (h : l.find? (fun u => u.id == tid) = some t) :
    ∃ i : Nat, l[i]? = some t ∧
      (∀ j : Nat, j < i → ∀ u : Task, l[j]? = some u → (u.id == tid) = false) ∧
      updateFirst f tid l = (true, l.set i (f t), some t) := by
  induction l with
  | nil => simp at h
  | cons a rest ih =>
    rw [List.find?_cons] at h
    cases ha : (a.id == tid) with
    | true =>
      rw [ha] at h
      simp only [Option.some.injEq] at h
      subst h
      exact ⟨0, by simp, by omega, by simp [updateFirst, ha]⟩
    | false =>
      rw [ha] at h
      simp only at h
      obtain ⟨i, hat, hfirst, heq⟩ := ih h
      refine ⟨i + 1, by simpa using hat, ?_, ?_⟩
      · intro j hj u hu
        cases j with
        | zero =>
          simp only [List.getElem?_cons_zero, Option.some.injEq] at hu
          exact hu ▸ ha
        | succ j =>
          simp only [List.getElem?_cons_succ] at hu
          exact hfirst j (by omega) u hu
      · simp only [updateFirst, ha, Bool.false_eq_true, if_false, heq, List.set_cons_succ]

theorem find?_set_eq (p : Task → Bool) (x : Task) (l : List Task) :
    ∀ i : Nat, i < l.length →
      (∀ j : Nat, j < i → ∀ u : Task, l[j]? = some u → p u = false) →
      p x = true → (l.set i x).find? p = some x := by
  induction l with
  | nil => intro i hi; simp at hi
  | cons a rest ih =>
    intro i hi hfirst hx
    cases i with
    | zero => simp [List.find?_cons, hx]
    | succ i =>
      have ha : p a = false := hfirst 0 (by omega) a (by simp)
      rw [List.set_cons_succ, List.find?_cons, ha]
      exact ih i (by simpa using hi) (fun j hj u hu => hfirst (j + 1) (by omega) u (by simpa using hu)) hx

theorem parseLine_eq_none_iff (l : String) :
    parseLine l = none ↔
      pyStrip l = "" ∨ (pySplit (pyStrip l) ';').length < 2 ∨
        pyInt ((pySplit (pyStrip l) ';').headD "") = none := by
  simp only [parseLine]
  by_cases hs : pyStrip l = ""
  · simp [hs]
  · rw [if_neg (by simpa using hs)]
    cases hp : pySplit (pyStrip l) ';' with
    | nil => simp [hs]
    | cons p0 ps =>
      cases ps with
      | nil => simp [hs]
      | cons p1 rest =>
        cases hi : pyInt p0 with
        | none => simp [hs, hi]
        | some tid =>
          simp only [List.headD_cons, hi, List.length_cons]
          constructor
          · intro h; exact absurd h (by simp)
          · intro h
            rcases h with h | h | h
            · exact absurd h hs
            · omega
            · exact absurd h (by simp)

theorem parseLine_labels_ne_empty (line : String) (t : Task) (h : parseLine line = some t) :
    ∀ lab ∈ t.labels, lab ≠ "" := by
  simp only [parseLine] at h
  by_cases hs : pyStrip line = ""
  · rw [if_pos (by simpa using hs)] at h; exact absurd h (by simp)
  · rw [if_neg (by simpa using hs)] at h
    cases hp : pySplit (pyStrip line) ';' with
    | nil => rw [hp] at h; exact absurd h (by simp)
    | cons p0 ps =>
      rw [hp] at h
      cases ps with
      | nil => exact absurd h (by simp)
      | cons p1 rest =>
        simp only at h
        cases hi : pyInt p0 with
        | none => rw [hi] at h; exact absurd h (by simp)
        | some tid =>
          rw [hi] at h
          simp only [Option.some.injEq] at h
          subst h
          cases rest with
          | nil => simp
          | cons p2 rest2 =>
            simp only
            by_cases h2 : (p2 != "None") = true
            · rw [if_pos h2]
              intro lab hlab
              have := List.of_mem_filter hlab
              simpa using this
            · rw [if_neg h2]
              simp

theorem le_maxIdAux (l : List Task) : ∀ m : Int, m ≤ maxIdAux m l := by
  induction l with
  | nil => intro m; exact le_refl m
  | cons t rest ih =>
    intro m
    calc m ≤ max m t.id := le_max_left _ _
      _ ≤ maxIdAux (max m t.id) rest := ih _

theorem maxIdAux_mem_le (l : List Task) : ∀ m : Int, ∀ t ∈ l, t.id ≤ maxIdAux m l := by
  induction l with
  | nil => intro m t ht; simp at ht
  | cons a rest ih =>
    intro m t ht
    rcases List.mem_cons.mp ht with h | h
    · subst h
      calc t.id ≤ max m t.id := le_max_right _ _
        _ ≤ maxIdAux (max m t.id) rest := le_maxIdAux _ _
    · exact ih _ t h

theorem maxIdAux_eq_or_mem (l : List Task) :
    ∀ m : Int, maxIdAux m l = m ∨ maxIdAux m l ∈ l.map Task.id := by
  induction l with
  | nil => intro m; exact Or.inl rfl
  | cons t rest ih =>
    intro m
    rcases ih (max m t.id) with h | h
    · rcases max_choice m t.id with hm | hm
      · exact Or.inl (by rw [maxIdAux, h, hm])
      · refine Or.inr ?_
        simp only [List.map_cons, List.mem_cons]
        exact Or.inl (by rw [maxIdAux, h, hm])
    · refine Or.inr ?_
      simp only [List.map_cons, List.mem_cons]
      exact Or.inr (by simpa [maxIdAux] using h)

theorem lt_length_of_get?_eq_some {α : Type} (l : List α) :
    ∀ (i : Nat) (x : α), l[i]? = some x → i < l.length := by
  induction l with
  | nil => intro i x h; simp at h
  | cons a rest ih =>
    intro i x h
    cases i with
    | zero => simp
    | succ i =>
      simp only [List.getElem?_cons_succ] at h
      have := ih i x h
      simp only [List.length_cons]
      omega

theorem set_get?_eq_self {α : Type} (l : List α) :
    ∀ (i : Nat) (x : α), l[i]? = some x → l.set i x = l := by
  induction l with
  | nil => intro i x h; simp at h
  | cons a rest ih =>
    intro i x h
    cases i with
    | zero =>
      simp only [List.getElem?_cons_zero, Option.some.injEq] at h
      rw [← h, List.set_cons_zero]
    | succ i =>
      simp only [List.getElem?_cons_succ] at h
      rw [List.set_cons_succ, ih i x h]

theorem map_set_comm {α β : Type} (f : α → β) (l : List α) :
    ∀ (i : Nat) (x : α), (l.set i x).map f = (l.map f).set i (f x) := by
  induction l with
  | nil => intro i x; simp
  | cons a rest ih =>
    intro i x
    cases i with
    | zero => simp
    | succ i => simp [ih]

theorem modify_eq (tasks : List String) (sid : String) (tid : Int) (nd ns : Option String)
    (hid : pyInt sid = some tid) :
    modify tasks sid nd ns
      = updateFirst (modifyTask (parse_tasks tasks) nd ns) tid (parse_tasks tasks) := by
  simp only [modify, hid]

theorem modifyTask_id (all : List Task) (nd ns : Option String) (t : Task) :
    (modifyTask all nd ns t).id = t.id := rfl

theorem applyStatus_started_blocked (all : List Task) (t : Task) (d : Int) (p : Task)
    (hdep : t.dep = some d) (hpar : all.find? (fun u => u.id == d) = some p)
    (hpc : p.status ≠ "completed") :
    applyStatus all t "started" = t.status := by
  have hb : (p.status == "completed") = false := by
    simpa using hpc
  simp [applyStatus, hdep, hpar, hb]

theorem applyStatus_started_parent_completed (all : List Task) (t : Task) (d : Int) (p : Task)
    (hdep : t.dep = some d) (hpar : all.find? (fun u => u.id == d) = some p)
    (hpc : p.status = "completed") :
    applyStatus all t "started" = "started" := by
  simp [applyStatus, hdep, hpar, hpc]

theorem applyStatus_started_parent_absent (all : List Task) (t : Task) (d : Int)
    (hdep : t.dep = some d) (hpar : all.find? (fun u => u.id == d) = none) :
    applyStatus all t "started" = "started" := by
  simp [applyStatus, hdep, hpar]

theorem applyStatus_completed (all : List Task) (t : Task) :
    applyStatus all t "completed" = "completed" := by
  simp [applyStatus, validStatuses]

theorem splitChar_cons (sep c : Char) (rest : List Char) :
    splitChar sep (c :: rest) =
      if c == sep then [] :: splitChar sep rest
      else
        match splitChar sep rest with
        | [] => [[c]]
        | f :: tail => (c :: f) :: tail := rfl

theorem splitChar_of_not_mem (sep : Char) (xs : List Char) (h : sep ∉ xs) :
    splitChar sep xs = [xs] := by
  induction xs with
  | nil => rfl
  | cons c rest ih =>
    have hc : (c == sep) = false := by
      simp only [List.mem_cons, not_or] at h
      exact beq_eq_false_iff_ne.mpr (fun hcs => h.1 hcs.symm)
    have hr : splitChar sep rest = [rest] := ih (by simp only [List.mem_cons, not_or] at h; exact h.2)
    rw [splitChar_cons, hr]
    simp [hc]

theorem splitChar_append (sep : Char) (xs ys : List Char) (h : sep ∉ xs) :
    splitChar sep (xs ++ sep :: ys) = xs :: splitChar sep ys := by
  induction xs with
  | nil => simp [splitChar]
  | cons c rest ih =>
    have hc : (c == sep) = false := by
      simp only [List.mem_cons, not_or] at h
      exact beq_eq_false_iff_ne.mpr (fun hcs => h.1 hcs.symm)
    have hr := ih (by simp only [List.mem_cons, not_or] at h; exact h.2)
    rw [List.cons_append, splitChar_cons, hr]
    simp [hc]

theorem mem_joinChar (sep : Char) (chunks : List (List Char)) (c : Char)
    (h : c ∈ joinChar sep chunks) : c = sep ∨ ∃ ch ∈ chunks, c ∈ ch := by
  induction chunks with
  | nil => simp [joinChar] at h
  | cons x xs ih =>
    cases xs with
    | nil =>
      simp only [joinChar] at h
      exact Or.inr ⟨x, List.mem_cons_self x [], h⟩
    | cons y ys =>
      simp only [joinChar, List.mem_append, List.mem_cons] at h
      rcases h with h | h | h
      · exact Or.inr ⟨x, List.mem_cons_self _ _, h⟩
      · exact Or.inl h
      · rcases ih h with h' | ⟨ch, hch, hc⟩
        · exact Or.inl h'
        · exact Or.inr ⟨ch, List.mem_cons_of_mem _ hch, hc⟩

theorem sep_mem_joinChar_two (sep : Char) (x y : List Char) (ys : List (List Char)) :
    sep ∈ joinChar sep (x :: y :: ys) := by
  simp [joinChar]

theorem splitChar_joinChar (sep : Char) (chunks : List (List Char)) (hne : chunks ≠ [])
    (h : ∀ ch ∈ chunks, sep ∉ ch) :
    splitChar sep (joinChar sep chunks) = chunks := by
  induction chunks with
  | nil => exact absurd rfl hne
  | cons x xs ih =>
    cases xs with
    | nil =>
      simp only [joinChar]
      exact splitChar_of_not_mem sep x (h x (List.mem_cons_self _ _))
    | cons y ys =>
      have hx : sep ∉ x := h x (List.mem_cons_self _ _)
      have hrest : ∀ ch ∈ y :: ys, sep ∉ ch := fun ch hch => h ch (List.mem_cons_of_mem _ hch)
      simp only [joinChar]
      rw [splitChar_append sep x _ hx, ih (by simp) hrest]

theorem stripList_inner_newline (b : Char) (B : List Char) (e : Char)
    (hb : pyWS b = false) (he : pyWS e = false) :
    stripList (b :: (B ++ [e, '\n'])) = b :: (B ++ [e]) := by
  unfold stripList
  have h1 : List.dropWhile pyWS (b :: (B ++ [e, '\n'])) = b :: (B ++ [e, '\n']) := by
    simp [List.dropWhile_cons, hb]
  rw [h1]
  have h2 : (b :: (B ++ [e, '\n'])).reverse = '\n' :: e :: (B.reverse ++ [b]) := by
    simp
  rw [h2]
  have hnl : pyWS '\n' = true := by decide
  have h3 : List.dropWhile pyWS ('\n' :: e :: (B.reverse ++ [b]))
      = e :: (B.reverse ++ [b]) := by
    simp [List.dropWhile_cons, hnl, he]
  rw [h3]
  simp

theorem map_pyStrip_eq_self (L : List String) (h : ∀ l ∈ L, pyStrip l = l) :
    L.map pyStrip = L := by
  induction L with
  | nil => rfl
  | cons a as ih =>
    simp only [List.map_cons, h a (List.mem_cons_self _ _),
      ih (fun l hl => h l (List.mem_cons_of_mem _ hl))]

theorem map_mk_map_data (L : List String) : (L.map String.data).map String.mk = L := by
  induction L with
  | nil => rfl
  | cons a as ih =>
    simp only [List.map_cons]
    rw [show String.mk a.data = a from rfl, ih]

theorem formatLine_data_shape (L : List String) :
    (formatLine 1 "t" (pyJoin ',' L) "suspended" none).data
      = '1' :: ((';' :: 't' :: ';' :: (joinChar ',' (L.map String.data)
          ++ (';' :: "suspended;Non".data))) ++ ['e', '\n']) := by
  simp only [formatLine, pyJoin]
  show ("1" ++ ";" ++ "t" ++ ";" ++ String.mk (joinChar ',' (L.map String.data)) ++ ";"
      ++ "suspended" ++ ";" ++ "None" ++ "\n").data = _
  simp only [String.data_append]
  simp [List.append_assoc]

theorem mem_updateFirst (f : Task → Task) (tid : Int) (l : List Task) :
    ∀ u ∈ (updateFirst f tid l).2.1, u ∈ l ∨ ∃ t, t ∈ l ∧ u = f t := by
  induction l with
  | nil => intro u hu; simp [updateFirst] at hu
  | cons t rest ih =>
    intro u hu
    simp only [updateFirst] at hu
    by_cases h : (t.id == tid) = true
    · simp only [h, if_true] at hu
      rcases List.mem_cons.mp hu with h1 | h1
      · exact Or.inr ⟨t, List.mem_cons_self _ _, h1⟩
      · exact Or.inl (List.mem_cons_of_mem _ h1)
    · have h' : (t.id == tid) = false := by simpa using h
      simp only [h', Bool.false_eq_true, if_false] at hu
      cases hr : updateFirst f tid rest with
      | mk fd ro =>
        rw [hr] at hu
        cases ro with
        | mk ts old =>
          simp only at hu
          rcases List.mem_cons.mp hu with h1 | h1
          · exact Or.inl (h1 ▸ List.mem_cons_self _ _)
          · have := ih u (by rw [hr]; exact h1)
            rcases this with h2 | ⟨t', ht', h3⟩
            · exact Or.inl (List.mem_cons_of_mem _ h2)
            · exact Or.inr ⟨t', List.mem_cons_of_mem _ ht', h3⟩

theorem mem_mergeLabels (ls : List String) :
    ∀ (acc : List String) (lab : String),
      lab ∈ ls.foldl (fun acc l => if acc.contains l then acc else acc ++ [l]) acc →
      lab ∈ acc ∨ lab ∈ ls := by
  induction ls with
  | nil => intro acc lab h; exact Or.inl (by simpa using h)
  | cons l ls' ih =>
    intro acc lab h
    simp only [List.foldl_cons] at h
    rcases ih _ lab h with h1 | h1
    · by_cases hc : acc.contains l = true
      · rw [if_pos hc] at h1
        exact Or.inl h1
      · rw [if_neg hc] at h1
        rcases List.mem_append.mp h1 with h2 | h2
        · exact Or.inl h2
        · simp only [List.mem_singleton] at h2
          exact Or.inr (h2 ▸ List.mem_cons_self _ _)
    · exact Or.inr (List.mem_cons_of_mem _ h1)

theorem rm_snd_eq (tasks : List String) (sid : String) (tid : Int) (hid : pyInt sid = some tid) :
    (rm tasks sid).2.1 = (parse_tasks tasks).filter (fun t => t.id != tid) := by
  simp only [rm, hid]
  split
  · rfl
  · rfl

/-! ### Claim theorems -/

/-- C1: `rm` on a referenced id does NOT clear the dangling dependencies in
the returned record list: the source computes the cascaded `final_tasks`
but returns `filtered_tasks`.  At the docstring's own example input, the
remaining record keeps `dep = some 1`, while the cascade the function
discards (`rm_cascade`) would have cleared it. -/
theorem rm_keeps_dangling_dependency :
    rm ["1;A;None;completed;None", "2;B;None;suspended;1"] "1"
      = (true, [⟨2, "B", [], "suspended", some 1⟩], some ⟨1, "A", [], "completed", none⟩)
    ∧ rm_cascade 1 [⟨2, "B", [], "suspended", some 1⟩] = [⟨2, "B", [], "suspended", none⟩] := by
  exact ⟨by decide, by decide⟩

/-- C2 (counterexample): a transition to `completed` is NOT gated on the
dependency: record 2 depends on record 1 whose status is `suspended`, yet
`modify` applies `completed`. -/
theorem modify_completed_bypasses_gate :
    modify ["1;A;None;suspended;None", "2;B;None;suspended;1"] "2" none (some "completed")
      = (true, [⟨1, "A", [], "suspended", none⟩, ⟨2, "B", [], "completed", some 1⟩],
          some ⟨2, "B", [], "suspended", some 1⟩) := by
  decide

/-- C3 (counterexample): the id of a removed record is reassigned: removing
id 2 (the maximum) and then adding to the persisted remaining set assigns
id 2 again. -/
theorem add_reuses_removed_id :
    (rm ["1;a;None;suspended;None", "2;b;None;suspended;None"] "2").1 = true
    ∧ (rm ["1;a;None;suspended;None", "2;b;None;suspended;None"] "2").2.2
        = some ⟨2, "b", [], "suspended", none⟩
    ∧ (add ["1;a;None;suspended;None"] "c" none "suspended" AddAnswer.noDep).map
        (fun r => r.1) = some 2 := by
  exact ⟨by decide, by decide, by decide⟩

/-- C4: on a syntactically valid id that is absent from the parsed set,
`rmLabel`, `clearLabel` and `rmDep` raise (`UnboundLocalError` on the
never-assigned `old_task`, modelled by `Except.error ()`) instead of
returning a found=false tuple; `modify` by contrast returns normally. -/
theorem not_found_raises_unbound_local :
    clearLabel ["1;A;None;suspended;None"] "2" = Except.error ()
    ∧ rmDep ["1;A;None;suspended;None"] "2" = Except.error ()
    ∧ rmLabel ["1;A;None;suspended;None"] "2" none = Except.error ()
    ∧ modify ["1;A;None;suspended;None"] "2" none none
        = (false, [⟨1, "A", [], "suspended", none⟩], none) := by
  exact ⟨rfl, rfl, rfl, by decide⟩

/-- C5 (counterexample): two concrete violations of the claim as stated.
Parsing does not deduplicate labels: the label field `x,x` parses to a
record whose label list has two equal entries.  And `add_options` stores a
caller-supplied empty label verbatim: merging `[""]` into a record leaves
its label list containing the empty string. -/
theorem label_invariant_counterexample :
    (parse_tasks ["1;A;x,x;suspended;None"] = [⟨1, "A", ["x", "x"], "suspended", none⟩]
      ∧ ¬ (["x", "x"] : List String).Nodup)
    ∧ add_options ["1;A;None;suspended;None"] "1" (some [""]) none false
        = (true, [⟨1, "A", [""], "suspended", none⟩],
            some ⟨1, "A", [], "suspended", none⟩) := by
  exact ⟨⟨by decide, by decide⟩, by decide⟩

theorem parse_labels_nonempty (lines : List String) (t : Task) (ht : t ∈ parse_tasks lines) :
    ∀ lab ∈ t.labels, lab ≠ "" := by
  rw [parse_tasks_eq_filterMap] at ht
  obtain ⟨l, _, hpl⟩ := List.mem_filterMap.mp ht
  exact parseLine_labels_ne_empty l t hpl

/-- C5 (amended): after parsing and after every mutation operation, no
record's label list contains an empty string, provided the label lists the
caller supplies to `add` and `add_options` contain no empty strings (those
two store caller labels verbatim, without validation); duplicate label
entries, however, are not prevented. -/
theorem labels_nonempty_invariant :
    (∀ (lines : List String) (t : Task), t ∈ parse_tasks lines → ∀ lab ∈ t.labels, lab ≠ "")
    ∧ (∀ (tasks : List String) (sid : String) (nd ns : Option String) (t : Task),
        t ∈ (modify tasks sid nd ns).2.1 → ∀ lab ∈ t.labels, lab ≠ "")
    ∧ (∀ (tasks : List String) (sid : String) (t : Task),
        t ∈ (rm tasks sid).2.1 → ∀ lab ∈ t.labels, lab ≠ "")
    ∧ (∀ (tasks : List String) (sid : String) (lb : Option (List String)) (dp : Option Int)
        (cf : Bool), (∀ l ∈ lb.getD [], l ≠ "") →
        ∀ t ∈ (add_options tasks sid lb dp cf).2.1, ∀ lab ∈ t.labels, lab ≠ "")
    ∧ (∀ (tasks : List String) (sid : String) (ch : Option Nat)
        (r : Bool × List Task × Option Task), rmLabel tasks sid ch = Except.ok r →
        ∀ t ∈ r.2.1, ∀ lab ∈ t.labels, lab ≠ "")
    ∧ (∀ (tasks : List String) (sid : String) (r : Bool × List Task × Option Task),
        clearLabel tasks sid = Except.ok r →
        ∀ t ∈ r.2.1, ∀ lab ∈ t.labels, lab ≠ "")
    ∧ (∀ (tasks : List String) (sid : String) (r : Bool × List Task × Option Task),
        rmDep tasks sid = Except.ok r →
        ∀ t ∈ r.2.1, ∀ lab ∈ t.labels, lab ≠ "")
    ∧ (∀ (tasks : List String) (details : String) (lb : Option (List String)) (st : String)
        (ans : AddAnswer) (r : Int × String × List String × String),
        (∀ l ∈ lb.getD [], l ≠ "") → add tasks details lb st ans = some r →
        ∀ lab ∈ r.2.2.1, lab ≠ "") := by
  refine ⟨parse_labels_nonempty, ?_, ?_, ?_, ?_, ?_, ?_, ?_⟩
  · intro tasks sid nd ns t ht lab hlab
    cases hid : pyInt sid with
    | none => simp [modify, hid] at ht
    | some tid =>
      rw [modify_eq tasks sid tid nd ns hid] at ht
      rcases mem_updateFirst _ tid _ t ht with h1 | ⟨t', ht', rfl⟩
      · exact parse_labels_nonempty tasks t h1 lab hlab
      · have h2 : lab ∈ t'.labels := by simpa [modifyTask] using hlab
        exact parse_labels_nonempty tasks t' ht' lab h2
  · intro tasks sid t ht lab hlab
    cases hid : pyInt sid with
    | none =>
      simp only [rm, hid] at ht
      exact parse_labels_nonempty tasks t ht lab hlab
    | some tid =>
      rw [rm_snd_eq tasks sid tid hid] at ht
      exact parse_labels_nonempty tasks t (List.mem_filter.mp ht).1 lab hlab
  · intro tasks sid lb dp cf hcaller t ht lab hlab
    cases hid : pyInt sid with
    | none => simp [add_options, hid] at ht
    | some tid =>
      simp only [add_options, hid] at ht
      rcases mem_updateFirst _ tid _ t ht with h1 | ⟨t', ht', rfl⟩
      · exact parse_labels_nonempty tasks t h1 lab hlab
      · simp only at hlab
        cases lb with
        | none => exact parse_labels_nonempty tasks t' ht' lab hlab
        | some ls =>
          simp only [Option.getD] at hcaller
          rcases mem_mergeLabels ls t'.labels lab hlab with h2 | h2
          · exact parse_labels_nonempty tasks t' ht' lab h2
          · exact hcaller lab h2
  · intro tasks sid ch r hok t ht lab hlab
    cases hid : pyInt sid with
    | none =>
      simp only [rmLabel, hid, Except.ok.injEq] at hok
      subst hok
      simp at ht
    | some tid =>
      simp only [rmLabel, hid] at hok
      cases hf : (parse_tasks tasks).find? (fun u => u.id == tid) with
      | none => rw [hf] at hok; exact absurd hok (by simp)
      | some t0 =>
        rw [hf] at hok
        simp only at hok
        by_cases hemp : t0.labels.isEmpty = true
        · rw [if_pos hemp] at hok
          simp only [Except.ok.injEq] at hok
          subst hok
          exact parse_labels_nonempty tasks t ht lab hlab
        · rw [if_neg hemp] at hok
          cases ch with
          | none =>
            simp only [Except.ok.injEq] at hok
            subst hok
            exact parse_labels_nonempty tasks t ht lab hlab
          | some n =>
            simp only [Except.ok.injEq] at hok
            subst hok
            rcases mem_updateFirst _ tid _ t ht with h1 | ⟨t', ht', rfl⟩
            · exact parse_labels_nonempty tasks t h1 lab hlab
            · have h2 : lab ∈ t'.labels.eraseIdx n := by simpa using hlab
              exact parse_labels_nonempty tasks t' ht' lab
                ((List.eraseIdx_sublist t'.labels n).subset h2)
  · intro tasks sid r hok t ht lab hlab
    cases hid : pyInt sid with
    | none =>
      simp only [clearLabel, hid, Except.ok.injEq] at hok
      subst hok
      simp at ht
    | some tid =>
      simp only [clearLabel, hid] at hok
      by_cases hfd : (updateFirst (fun t => { t with labels := [] }) tid (parse_tasks tasks)).1
          = true
      · rw [if_pos hfd] at hok
        simp only [Except.ok.injEq] at hok
        subst hok
        rcases mem_updateFirst _ tid _ t ht with h1 | ⟨t', ht', rfl⟩
        · exact parse_labels_nonempty tasks t h1 lab hlab
        · simp at hlab
      · rw [if_neg hfd] at hok
        exact absurd hok (by simp)
  · intro tasks sid r hok t ht lab hlab
    cases hid : pyInt sid with
    | none =>
      simp only [rmDep, hid, Except.ok.injEq] at hok
      subst hok
      simp at ht
    | some tid =>
      simp only [rmDep, hid] at hok
      by_cases hfd : (updateFirst (fun t => { t with dep := none }) tid (parse_tasks tasks)).1
          = true
      · rw [if_pos hfd] at hok
        simp only [Except.ok.injEq] at hok
        subst hok
        rcases mem_updateFirst _ tid _ t ht with h1 | ⟨t', ht', rfl⟩
        · exact parse_labels_nonempty tasks t h1 lab hlab
        · have h2 : lab ∈ t'.labels := by simpa using hlab
          exact parse_labels_nonempty tasks t' ht' lab h2
      · rw [if_neg hfd] at hok
        exact absurd hok (by simp)
  · intro tasks details lb st ans r hcaller hadd lab hlab
    have hr : r.2.2.1 = lb.getD [] := by
      cases hp : parse_tasks tasks with
      | nil =>
        simp only [add, hp, Option.some.injEq] at hadd
        subst hadd
        rfl
      | cons t0 rest =>
        cases ans with
        | cancelled =>
          simp only [add, hp] at hadd
          exact absurd hadd (by simp)
        | noDep =>
          simp only [add, hp, Option.some.injEq] at hadd
          subst hadd
          rfl
        | withDep dd =>
          simp only [add, hp, Option.some.injEq] at hadd
          subst hadd
          rfl
    rw [hr] at hlab
    exact hcaller lab hlab

theorem labels_nonempty_invariant_witness : ("u" : String) ≠ "" :=
  labels_nonempty_invariant.2.2.2.1 ["1;A;None;suspended;None"] "1" (some ["u"]) none false
    (by decide) ⟨1, "A", ["u"], "suspended", none⟩ (by decide) "u" (by decide)

/-- C6: `parse_tasks` is total by construction, processes lines in
encounter order keeping each parsed record (`filterMap`), and a line is
dropped exactly when it is blank/whitespace-only, has fewer than two
`;`-delimited fields, or its first field is not a valid integer. -/
theorem parse_total_and_drop_characterization :
    (∀ lines : List String, parse_tasks lines = lines.filterMap parseLine)
    ∧ (∀ l : String, parseLine l = none ↔
        pyStrip l = "" ∨ (pySplit (pyStrip l) ';').length < 2 ∨
          pyInt ((pySplit (pyStrip l) ';').headD "") = none) :=
  ⟨parse_tasks_eq_filterMap, parseLine_eq_none_iff⟩

/-- C9: a line whose stripped form has exactly two `;`-delimited fields
with an integer first field parses to a record with that id and
description, no labels, status `suspended` and no dependency. -/
theorem parse_legacy_two_fields (line f0 f1 : String) (i : Int)
    (hsplit : pySplit (pyStrip line) ';' = [f0, f1]) (hint : pyInt f0 = some i) :
    parse_tasks [line] = [⟨i, f1, [], "suspended", none⟩] := by
  have hne : pyStrip line ≠ "" := by
    intro h
    rw [h] at hsplit
    simp [pySplit, splitChar] at hsplit
  have hpl : parseLine line = some ⟨i, f1, [], "suspended", none⟩ := by
    simp only [parseLine]
    rw [if_neg (by simpa using hne), hsplit]
    simp only [hint]
  rw [parse_tasks_eq_filterMap]
  simp [hpl]

theorem parse_legacy_two_fields_witness :
    parse_tasks ["5;Legacy task"] = [⟨5, "Legacy task", [], "suspended", none⟩] :=
  parse_legacy_two_fields "5;Legacy task" "5" "Legacy task" 5 (by decide) (by decide)

/-- C8 (counterexample): four label lists, each valid under the claim as
stated (non-empty, duplicate-free, non-empty entries), whose serialization
does not parse back to the same list: `["None"]` serializes to the
empty-labels sentinel field and parses to `[]`; `["a,b"]` is re-split at
the `,` into `["a", "b"]`; `[" a"]` is trimmed to `["a"]`; and `["x;y"]`
leaks the `;` into the field structure, parsing to labels `["x"]` with
status `y`. -/
theorem roundtrip_counterexamples :
    (parse_tasks [formatLine 1 "t" (pyJoin ',' ["None"]) "suspended" none]
        = [⟨1, "t", [], "suspended", none⟩] ∧ (([] : List String) ≠ ["None"]))
    ∧ (parse_tasks [formatLine 1 "t" (pyJoin ',' ["a,b"]) "suspended" none]
        = [⟨1, "t", ["a", "b"], "suspended", none⟩]
        ∧ ((["a", "b"] : List String) ≠ ["a,b"]))
    ∧ (parse_tasks [formatLine 1 "t" (pyJoin ',' [" a"]) "suspended" none]
        = [⟨1, "t", ["a"], "suspended", none⟩] ∧ ((["a"] : List String) ≠ [" a"]))
    ∧ (parse_tasks [formatLine 1 "t" (pyJoin ',' ["x;y"]) "suspended" none]
        = [⟨1, "t", ["x"], "y", none⟩] ∧ ((["x"] : List String) ≠ ["x;y"])) := by
  exact ⟨⟨by decide, by decide⟩, ⟨by decide, by decide⟩, ⟨by decide, by decide⟩,
    ⟨by decide, by decide⟩⟩

/-- C2 (amended): for a record whose dependency's first matching record has
status other than `completed`, a requested transition to `started` is
refused — no record's stored status changes — while a requested transition
to `completed` is applied despite the incomplete dependency. -/
theorem modify_gate_refuses_started_only
    (tasks : List String) (sid : String) (tid : Int) (nd : Option String) (t : Task)
    (d : Int) (p : Task)
    (hid : pyInt sid = some tid)
    (hfind : (parse_tasks tasks).find? (fun u => u.id == tid) = some t)
    (hdep : t.dep = some d)
    (hpar : (parse_tasks tasks).find? (fun u => u.id == d) = some p)
    (hpc : p.status ≠ "completed") :
    (modify tasks sid nd (some "started")).2.1.map Task.status
        = (parse_tasks tasks).map Task.status
    ∧ statusOfId (modify tasks sid nd (some "completed")).2.1 tid = some "completed" := by
  have htid : (t.id == tid) = true := by simpa using List.find?_some hfind
  constructor
  · obtain ⟨i, hat, hfirst, heq⟩ :=
      updateFirst_of_find?_eq_some (modifyTask (parse_tasks tasks) nd (some "started"))
        tid (parse_tasks tasks) t hfind
    rw [modify_eq tasks sid tid nd (some "started") hid, heq]
    have hstat : (modifyTask (parse_tasks tasks) nd (some "started") t).status = t.status := by
      simp [modifyTask, applyStatus_started_blocked (parse_tasks tasks) t d p hdep hpar hpc]
    simp only [map_set_comm, hstat]
    apply set_get?_eq_self
    rw [List.getElem?_map, hat]
    rfl
  · obtain ⟨i, hat, hfirst, heq⟩ :=
      updateFirst_of_find?_eq_some (modifyTask (parse_tasks tasks) nd (some "completed"))
        tid (parse_tasks tasks) t hfind
    rw [modify_eq tasks sid tid nd (some "completed") hid, heq]
    have hstat : (modifyTask (parse_tasks tasks) nd (some "completed") t).status = "completed" := by
      simp [modifyTask, applyStatus_completed]
    have hxid : ((modifyTask (parse_tasks tasks) nd (some "completed") t).id == tid) = true := by
      simpa [modifyTask_id] using htid
    have hlen : i < (parse_tasks tasks).length := lt_length_of_get?_eq_some _ i t hat
    unfold statusOfId
    rw [find?_set_eq _ _ _ i hlen hfirst hxid]
    simp [hstat]

theorem modify_gate_refuses_started_only_witness :
    (modify ["1;A;None;suspended;None", "2;B;None;suspended;1"] "2" none
          (some "started")).2.1.map Task.status
        = (parse_tasks ["1;A;None;suspended;None", "2;B;None;suspended;1"]).map Task.status
    ∧ statusOfId (modify ["1;A;None;suspended;None", "2;B;None;suspended;1"] "2" none
          (some "completed")).2.1 2 = some "completed" :=
  modify_gate_refuses_started_only ["1;A;None;suspended;None", "2;B;None;suspended;1"]
    "2" 2 none ⟨2, "B", [], "suspended", some 1⟩ 1 ⟨1, "A", [], "suspended", none⟩
    (by decide) (by decide) (by decide) (by decide) (by decide)

/-- C7: `modify` to `started` on a record with a dependency: refused
(status kept) when the dependency's record exists with status other than
`completed`; applied when the dependency's record is `completed` or absent
from the set. -/
theorem modify_started_dependency_gate
    (tasks : List String) (sid : String) (tid : Int) (nd : Option String) (t : Task) (d : Int)
    (hid : pyInt sid = some tid)
    (hfind : (parse_tasks tasks).find? (fun u => u.id == tid) = some t)
    (hdep : t.dep = some d) :
    (∀ p : Task, (parse_tasks tasks).find? (fun u => u.id == d) = some p →
        p.status ≠ "completed" →
        statusOfId (modify tasks sid nd (some "started")).2.1 tid = some t.status)
    ∧ (∀ p : Task, (parse_tasks tasks).find? (fun u => u.id == d) = some p →
        p.status = "completed" →
        statusOfId (modify tasks sid nd (some "started")).2.1 tid = some "started")
    ∧ ((parse_tasks tasks).find? (fun u => u.id == d) = none →
        statusOfId (modify tasks sid nd (some "started")).2.1 tid = some "started") := by
  have htid : (t.id == tid) = true := by simpa using List.find?_some hfind
  obtain ⟨i, hat, hfirst, heq⟩ :=
    updateFirst_of_find?_eq_some (modifyTask (parse_tasks tasks) nd (some "started"))
      tid (parse_tasks tasks) t hfind
  have hxid : ((modifyTask (parse_tasks tasks) nd (some "started") t).id == tid) = true := by
    simpa [modifyTask_id] using htid
  have hlen : i < (parse_tasks tasks).length := lt_length_of_get?_eq_some _ i t hat
  have hso : statusOfId (modify tasks sid nd (some "started")).2.1 tid
      = some (modifyTask (parse_tasks tasks) nd (some "started") t).status := by
    rw [modify_eq tasks sid tid nd (some "started") hid, heq]
    unfold statusOfId
    rw [find?_set_eq _ _ _ i hlen hfirst hxid]
    rfl
  refine ⟨?_, ?_, ?_⟩
  · intro p hpar hpc
    rw [hso]
    simp [modifyTask, applyStatus_started_blocked (parse_tasks tasks) t d p hdep hpar hpc]
  · intro p hpar hpc
    rw [hso]
    simp [modifyTask, applyStatus_started_parent_completed (parse_tasks tasks) t d p hdep hpar hpc]
  · intro hpar
    rw [hso]
    simp [modifyTask, applyStatus_started_parent_absent (parse_tasks tasks) t d hdep hpar]

theorem modify_started_dependency_gate_witness :
    statusOfId (modify ["1;A;None;suspended;None", "2;B;None;suspended;1"] "2" none
        (some "started")).2.1 2 = some "suspended" :=
  (modify_started_dependency_gate ["1;A;None;suspended;None", "2;B;None;suspended;1"]
      "2" 2 none ⟨2, "B", [], "suspended", some 1⟩ 1
      (by decide) (by decide) (by decide)).1
    ⟨1, "A", [], "suspended", none⟩ (by decide) (by decide)

/-- C3 (amended): `add` assigns id 1 on an empty parsed set and
`max(existing ids) + 1` otherwise, so the assigned id is strictly greater
than every id currently present; an id removed earlier can, however, be
assigned again once it exceeds the maximum of the remaining ids. -/
theorem add_id_assignment (tasks : List String) (details : String) (lb : Option (List String))
    (st : String) (ans : AddAnswer) (r : Int × String × List String × String)
    (h : add tasks details lb st ans = some r) :
    (parse_tasks tasks = [] → r.1 = 1)
    ∧ (parse_tasks tasks ≠ [] →
        ∃ m : Int, m ∈ (parse_tasks tasks).map Task.id ∧
          (∀ t ∈ parse_tasks tasks, t.id ≤ m) ∧ r.1 = m + 1)
    ∧ (∀ t ∈ parse_tasks tasks, t.id < r.1) := by
  cases hp : parse_tasks tasks with
  | nil =>
    have hr1 : r.1 = 1 := by
      simp only [add, hp, Option.some.injEq] at h
      subst h
      rfl
    exact ⟨fun _ => hr1, fun hne => absurd rfl hne, fun t ht => by simp at ht⟩
  | cons t0 rest =>
    have hr1 : r.1 = maxIdAux t0.id rest + 1 := by
      cases ans with
      | cancelled =>
        simp only [add, hp] at h
        exact absurd h (by simp)
      | noDep =>
        simp only [add, hp, Option.some.injEq] at h
        subst h
        rfl
      | withDep dd =>
        simp only [add, hp, Option.some.injEq] at h
        subst h
        rfl
    have hbound : ∀ t ∈ t0 :: rest, t.id ≤ maxIdAux t0.id rest := by
      intro t ht
      rcases List.mem_cons.mp ht with h1 | h1
      · exact h1 ▸ le_maxIdAux rest t0.id
      · exact maxIdAux_mem_le rest t0.id t h1
    refine ⟨fun he => by simp at he, fun _ => ⟨maxIdAux t0.id rest, ?_, hbound, hr1⟩,
      fun t ht => by have := hbound t ht; rw [hr1]; omega⟩
    rcases maxIdAux_eq_or_mem rest t0.id with hm | hm
    · simp only [List.map_cons, List.mem_cons]
      exact Or.inl hm
    · simp only [List.map_cons, List.mem_cons]
      exact Or.inr hm

theorem add_id_assignment_witness :
    parse_tasks ["1;a;None;suspended;None"] ≠ []
    ∧ ∃ m : Int, m ∈ (parse_tasks ["1;a;None;suspended;None"]).map Task.id ∧
        (∀ t ∈ parse_tasks ["1;a;None;suspended;None"], t.id ≤ m) ∧
        ((2 : Int), ("c" : String), ([] : List String),
          ("2;c;None;suspended;None\n" : String)).1 = m + 1 :=
  ⟨by decide,
    (add_id_assignment ["1;a;None;suspended;None"] "c" none "suspended" AddAnswer.noDep
        (2, "c", [], "2;c;None;suspended;None\n") (by decide)).2.1 (by decide)⟩

/-- C10: each in-place mutation that reports found=true for the target id
leaves every record at a position whose id differs from the target exactly
as in the parsed input, at the same position, and preserves the list
length. -/
theorem mutation_frame (tasks : List String) (sid : String) (tid : Int)
    (hid : pyInt sid = some tid) :
    (∀ (nd ns : Option String) (j : Nat) (u : Task),
        (modify tasks sid nd ns).1 = true →
        (parse_tasks tasks)[j]? = some u → u.id ≠ tid →
        (modify tasks sid nd ns).2.1[j]? = some u)
    ∧ (∀ nd ns : Option String, (modify tasks sid nd ns).1 = true →
        (modify tasks sid nd ns).2.1.length = (parse_tasks tasks).length)
    ∧ (∀ (lb : Option (List String)) (dp : Option Int) (cf : Bool) (j : Nat) (u : Task),
        (add_options tasks sid lb dp cf).1 = true →
        (parse_tasks tasks)[j]? = some u → u.id ≠ tid →
        (add_options tasks sid lb dp cf).2.1[j]? = some u)
    ∧ (∀ (lb : Option (List String)) (dp : Option Int) (cf : Bool),
        (add_options tasks sid lb dp cf).1 = true →
        (add_options tasks sid lb dp cf).2.1.length = (parse_tasks tasks).length)
    ∧ (∀ (ch : Option Nat) (l : List Task) (o : Option Task),
        rmLabel tasks sid ch = Except.ok (true, l, o) →
        l.length = (parse_tasks tasks).length ∧
          ∀ (j : Nat) (u : Task), (parse_tasks tasks)[j]? = some u → u.id ≠ tid →
            l[j]? = some u)
    ∧ (∀ (l : List Task) (o : Option Task),
        clearLabel tasks sid = Except.ok (true, l, o) →
        l.length = (parse_tasks tasks).length ∧
          ∀ (j : Nat) (u : Task), (parse_tasks tasks)[j]? = some u → u.id ≠ tid →
            l[j]? = some u)
    ∧ (∀ (l : List Task) (o : Option Task),
        rmDep tasks sid = Except.ok (true, l, o) →
        l.length = (parse_tasks tasks).length ∧
          ∀ (j : Nat) (u : Task), (parse_tasks tasks)[j]? = some u → u.id ≠ tid →
            l[j]? = some u) := by
  refine ⟨?_, ?_, ?_, ?_, ?_, ?_, ?_⟩
  · intro nd ns j u _ hu hne
    rw [modify_eq tasks sid tid nd ns hid]
    exact updateFirst_get?_of_ne _ tid _ j u hu hne
  · intro nd ns _
    rw [modify_eq tasks sid tid nd ns hid]
    exact updateFirst_length _ tid _
  · intro lb dp cf j u _ hu hne
    simp only [add_options, hid]
    exact updateFirst_get?_of_ne _ tid _ j u hu hne
  · intro lb dp cf _
    simp only [add_options, hid]
    exact updateFirst_length _ tid _
  · intro ch l o hok
    simp only [rmLabel, hid] at hok
    cases hf : (parse_tasks tasks).find? (fun t => t.id == tid) with
    | none => rw [hf] at hok; exact absurd hok (by simp)
    | some t =>
      rw [hf] at hok
      simp only at hok
      by_cases hemp : t.labels.isEmpty = true
      · rw [if_pos hemp] at hok
        simp only [Except.ok.injEq, Prod.mk.injEq] at hok
        obtain ⟨-, hl, -⟩ := hok
        subst hl
        exact ⟨rfl, fun j u hu _ => hu⟩
      · rw [if_neg hemp] at hok
        cases ch with
        | none =>
          simp only [Except.ok.injEq, Prod.mk.injEq] at hok
          exact absurd hok.1.symm (by simp)
        | some n =>
          simp only [Except.ok.injEq, Prod.mk.injEq] at hok
          obtain ⟨-, hl, -⟩ := hok
          subst hl
          exact ⟨updateFirst_length _ tid _, fun j u hu hne =>
            updateFirst_get?_of_ne _ tid _ j u hu hne⟩
  · intro l o hok
    simp only [clearLabel, hid] at hok
    by_cases hfd : (updateFirst (fun t => { t with labels := [] }) tid (parse_tasks tasks)).1 = true
    · rw [if_pos hfd] at hok
      simp only [Except.ok.injEq] at hok
      have hl : (updateFirst (fun t => { t with labels := ([] : List String) }) tid
          (parse_tasks tasks)).2.1 = l := by
        rw [hok]
      rw [← hl]
      exact ⟨updateFirst_length _ tid _, fun j u hu hne =>
        updateFirst_get?_of_ne _ tid _ j u hu hne⟩
    · rw [if_neg hfd] at hok
      exact absurd hok (by simp)
  · intro l o hok
    simp only [rmDep, hid] at hok
    by_cases hfd : (updateFirst (fun t => { t with dep := none }) tid (parse_tasks tasks)).1 = true
    · rw [if_pos hfd] at hok
      simp only [Except.ok.injEq] at hok
      have hl : (updateFirst (fun t => { t with dep := (none : Option Int) }) tid
          (parse_tasks tasks)).2.1 = l := by
        rw [hok]
      rw [← hl]
      exact ⟨updateFirst_length _ tid _, fun j u hu hne =>
        updateFirst_get?_of_ne _ tid _ j u hu hne⟩
    · rw [if_neg hfd] at hok
      exact absurd hok (by simp)

theorem mutation_frame_witness :
    (modify ["1;A;None;suspended;None", "2;B;u;suspended;None"] "2" (some "X") none).2.1[0]?
      = some ⟨1, "A", [], "suspended", none⟩ :=
  (mutation_frame ["1;A;None;suspended;None", "2;B;u;suspended;None"] "2" 2 (by decide)).1
    (some "X") none 0 ⟨1, "A", [], "suspended", none⟩ (by decide) (by decide) (by decide)


/-- C8 (amended): for every non-empty duplicate-free label list whose
entries are non-empty, trim-invariant and free of the two separators `;`
and `,`, and which is not the single sentinel list `["None"]`, serializing
a record with those labels and parsing the resulting canonical line yields
the same labels in the same order. -/
theorem label_roundtrip (L : List String)
    (hne : L ≠ []) (hnd : L.Nodup)
    (hlab : ∀ l ∈ L, l ≠ "" ∧ pyStrip l = l ∧ ';' ∉ l.data ∧ ',' ∉ l.data)
    (hNone : L ≠ ["None"]) :
    parse_tasks [formatLine 1 "t" (pyJoin ',' L) "suspended" none]
      = [⟨1, "t", L, "suspended", none⟩] := by
  have hSsep : ';' ∉ joinChar ',' (L.map String.data) := by
    intro hmem
    rcases mem_joinChar ',' (L.map String.data) ';' hmem with h | ⟨ch, hch, hcm⟩
    · exact absurd h (by decide)
    · obtain ⟨l, hl, rfl⟩ := List.mem_map.mp hch
      exact (hlab l hl).2.2.1 hcm
  have hstrip : stripList (formatLine 1 "t" (pyJoin ',' L) "suspended" none).data
      = '1' :: ((';' :: 't' :: ';' :: (joinChar ',' (L.map String.data)
          ++ (';' :: "suspended;Non".data))) ++ ['e']) := by
    rw [formatLine_data_shape]
    exact stripList_inner_newline '1' _ 'e' (by decide) (by decide)
  have hchars : '1' :: ((';' :: 't' :: ';' :: (joinChar ',' (L.map String.data)
          ++ (';' :: "suspended;Non".data))) ++ ['e'])
      = ['1'] ++ (';' :: (['t'] ++ (';' :: (joinChar ',' (L.map String.data)
          ++ (';' :: "suspended;None".data))))) := by
    rw [show ("suspended;None".data) = "suspended;Non".data ++ ['e'] from by decide]
    simp [List.append_assoc]
  have hsc : splitChar ';' (stripList (formatLine 1 "t" (pyJoin ',' L) "suspended" none).data)
      = [['1'], ['t'], joinChar ',' (L.map String.data), "suspended".data, "None".data] := by
    rw [hstrip, hchars]
    rw [splitChar_append ';' ['1'] _ (by decide)]
    rw [splitChar_append ';' ['t'] _ (by decide)]
    rw [splitChar_append ';' (joinChar ',' (L.map String.data)) _ hSsep]
    rw [show splitChar ';' ("suspended;None".data) = ["suspended".data, "None".data] from by decide]
  have hsplit : pySplit (pyStrip (formatLine 1 "t" (pyJoin ',' L) "suspended" none)) ';'
      = ["1", "t", String.mk (joinChar ',' (L.map String.data)), "suspended", "None"] := by
    show (splitChar ';' (stripList (formatLine 1 "t" (pyJoin ',' L) "suspended" none).data)).map
        String.mk = _
    rw [hsc]
    rfl
  have hlne : (pyStrip (formatLine 1 "t" (pyJoin ',' L) "suspended" none) == "") = false := by
    refine beq_eq_false_iff_ne.mpr ?_
    intro hh
    have hd := congrArg String.data hh
    rw [show (pyStrip (formatLine 1 "t" (pyJoin ',' L) "suspended" none)).data
        = stripList (formatLine 1 "t" (pyJoin ',' L) "suspended" none).data from rfl, hstrip] at hd
    simp at hd
  have hSnone : (String.mk (joinChar ',' (L.map String.data)) != "None") = true := by
    refine bne_iff_ne.mpr ?_
    intro hh
    have hd : joinChar ',' (L.map String.data) = "None".data := congrArg String.data hh
    rcases L with _ | ⟨a, as⟩
    · exact hne rfl
    · rcases as with _ | ⟨b, bs⟩
      · have ha : a.data = "None".data := by simpa [joinChar] using hd
        have haN : a = "None" := by
          calc a = String.mk a.data := rfl
            _ = String.mk ("None".data) := by rw [ha]
            _ = "None" := rfl
        exact hNone (by rw [haN])
      · have hcm : ',' ∈ joinChar ',' ((a :: b :: bs).map String.data) := by
          simp only [List.map_cons]
          exact sep_mem_joinChar_two ',' _ _ _
        rw [hd] at hcm
        exact absurd hcm (by decide)
  have hlabels : ((pySplit (String.mk (joinChar ',' (L.map String.data))) ',').map pyStrip).filter
      (fun x => x != "") = L := by
    have h1 : pySplit (String.mk (joinChar ',' (L.map String.data))) ',' = L := by
      show (splitChar ',' (joinChar ',' (L.map String.data))).map String.mk = L
      rw [splitChar_joinChar ',' (L.map String.data) (by simpa using hne)
        (fun ch hch => by
          obtain ⟨l, hl, rfl⟩ := List.mem_map.mp hch
          exact (hlab l hl).2.2.2)]
      exact map_mk_map_data L
    rw [h1, map_pyStrip_eq_self L (fun l hl => (hlab l hl).2.1)]
    exact List.filter_eq_self.mpr (fun a ha => by simpa using (hlab a ha).1)
  have hpl : parseLine (formatLine 1 "t" (pyJoin ',' L) "suspended" none)
      = some ⟨1, "t", L, "suspended", none⟩ := by
    simp only [parseLine]
    rw [if_neg (by simp [hlne])]
    rw [hsplit]
    simp only
    rw [show pyInt "1" = some (1 : Int) from by decide]
    simp only
    rw [if_pos hSnone, hlabels]
    rw [show (if pyStrip "suspended" != "" then pyStrip "suspended" else "suspended")
        = "suspended" from by decide]
    rw [show pyDepField "None" = none from by decide]
  rw [parse_tasks_eq_filterMap]
  simp [hpl]

theorem label_roundtrip_witness :
    parse_tasks [formatLine 1 "t" (pyJoin ',' ["a", "b"]) "suspended" none]
      = [⟨1, "t", ["a", "b"], "suspended", none⟩] :=
  label_roundtrip ["a", "b"] (by decide) (by decide) (by decide) (by decide)

end TaskManager
